import Mathlib

/-!
Verification of the cash-secured-put scanning and ranking engine of
`pages/api/options-scan-live.js`.

Modelling conventions:
* JS numbers that have passed through the source's `num` helper (which maps any
  non-finite value to `null`) are modelled as `Option ℝ`, with `none` standing
  for `null` / `NaN` / `±Infinity`.  All numeric fields of provider payloads
  are read through `num` in the source, so contracts and quotes carry
  `Option ℝ` fields.
* The shared mutable module state (`yahooSession`, `yahooChainCache`) is passed
  explicitly as a `St` record; the network is an oracle `Env` assigning an
  outcome to each successive option-chain request (indexed by a request
  counter, which also lets us count upstream calls).  A thrown network error is
  modelled as the `Except.error` branch of the fetch result; global state
  mutations made before the throw survive, exactly as JS module globals do.
* Calendar arithmetic: `toISOString().slice(0, 10)` of a timestamp of
  `s` seconds is the UTC day number `⌊s / 86400⌋`; the run's target expiry is
  carried as that day number, and the run's days-to-expiry `dte` (already
  clamped to `≥ 0` by the handler) as a natural number.
-/

open scoped Classical

namespace OptionsScanLive

/-! ## Definitions: NormalApprox (`normCdf`) -/

/-- The degree-5 polynomial (in Horner form, exactly as in `normCdf`) evaluated
at `k`. -/
noncomputable def polyAS (k : ℝ) : ℝ :=
  ((((1.330274429 * k + (-1.821255978)) * k + 1.781477937) * k + (-0.356563782)) * k
      + 0.319381530) * k

/-- The same polynomial with the leading factor `k` removed (proof helper). -/
noncomputable def qAS (k : ℝ) : ℝ :=
  0.319381530 + (-0.356563782) * k + 1.781477937 * k ^ 2
    + (-1.821255978) * k ^ 3 + 1.330274429 * k ^ 4

/-- `normCdf` of the source: Abramowitz–Stegun approximation of the standard
normal CDF. -/
noncomputable def normCdf (x : ℝ) : ℝ :=
  let k : ℝ := 1 / (1 + 0.2316419 * |x|)
  let approx : ℝ := 1 - 1 / Real.sqrt (2 * Real.pi) * Real.exp (-0.5 * (x * x)) * polyAS k
  if x < 0 then 1 - approx else approx

/-! ## Definitions: OptionPricingMath (`bsPutDelta`) -/

/-- `bsPutDelta` of the source: Black-Scholes put delta with defensive input
normalization.  Inputs are post-`num` JS numbers (`none` = null / non-finite).
In the source `S = num(spot)` and `K = num(strike)` turn `null` into `0`, which
then fails the `S > 0` / `K > 0` test, so a `none` input and a non-positive
input both yield `null`, as modelled here. -/
noncomputable def bsPutDelta (spot strike iv dte : Option ℝ) : Option ℝ :=
  match spot, strike with
  | some S, some K =>
    if S ≤ 0 ∨ K ≤ 0 then none
    else
      match iv with
      | some sigmaRaw =>
        if sigmaRaw ≤ 0 then none
        else
          let sigma : ℝ := if 3 < sigmaRaw then sigmaRaw / 100 else sigmaRaw
          let t0 : ℝ := max (dte.getD 0) 0 / 365
          let T : ℝ := if t0 = 0 then 1 / 365 else t0
          let d1 : ℝ := (Real.log (S / K) + 0.5 * sigma * sigma * T)
            / (sigma * Real.sqrt T)
          some (normCdf d1 - 1)
      | none => none
  | _, _ => none

/-- An argument on which the source's positivity guards fire: `null`
(equivalently a non-finite number, which `num` turns into `null`) or a
non-positive value. -/
def badNumArg (x : Option ℝ) : Prop := x = none ∨ ∃ v, x = some v ∧ v ≤ 0

/-! ## Definitions: data model -/

/-- The four fields of the provider's underlying-quote block that the source
reads, each already passed through `num`. -/
structure Quote where
  regularMarketPrice : Option ℝ
  bid : Option ℝ
  ask : Option ℝ
  previousClose : Option ℝ

/-- One raw put contract of the provider chain, fields post-`num`. -/
structure Put where
  expiration : Option ℝ
  strike : Option ℝ
  impliedVolatility : Option ℝ
  delta : Option ℝ
  bid : Option ℝ
  ask : Option ℝ
  lastPrice : Option ℝ

/-- A successfully parsed (2xx, valid JSON) chain response body:
`optionChain.result[0].options[0].puts` and `optionChain.result[0].quote`. -/
structure ChainPayload where
  puts : List Put
  quote : Quote

/-- The value memoized per `(ticker, expiry)`: the put list and resolved spot. -/
structure Chain where
  puts : List Put
  spot : Option ℝ

/-- One emitted candidate row (the object pushed onto `out`).  The string
fields `trade_dt` / `exp` are carried by the run, not per row, and are omitted;
`dte` is the run's days-to-expiry. -/
structure Candidate where
  ticker : String
  spot : ℝ
  strike : ℝ
  bid : ℝ
  ask : Option ℝ
  premium : ℝ
  iv : Option ℝ
  delta : Option ℝ
  pop : Option ℝ
  moneyness : ℝ
  roi : ℝ
  roi_annualized : Option ℝ
  dte : ℕ

/-! ## Definitions: ChainFetcher helpers and CandidateBuilder -/

/-- Spot resolution of the source:
`num(q.regularMarketPrice) ?? num(q.bid) ?? num(q.ask) ?? num(q.previousClose) ?? null`. -/
def resolveSpot (q : Quote) : Option ℝ :=
  match q.regularMarketPrice with
  | some v => some v
  | none =>
    match q.bid with
    | some v => some v
    | none =>
      match q.ask with
      | some v => some v
      | none => q.previousClose

/-- UTC day number of a contract's `expiration` (seconds since epoch):
`expSec ? new Date(expSec * 1000).toISOString().slice(0, 10) : null`.
A zero timestamp is falsy in JS, hence `none`. -/
noncomputable def expDayOf (e : Option ℝ) : Option ℤ :=
  match e with
  | none => none
  | some s => if s = 0 then none else some ⌊s / 86400⌋

/-- Premium selection of the source: bid/ask midpoint when both are present, a
single present side otherwise, else the last trade price. -/
noncomputable def midPremium (bid ask lastPrice : Option ℝ) : Option ℝ :=
  match bid, ask with
  | some b, some a => some ((b + a) / 2)
  | some b, none => some b
  | none, some a => some a
  | none, none => lastPrice

/-- Delta resolution of the source: the provider-supplied value if present,
else the Black-Scholes fallback. -/
noncomputable def resolveDelta (spot strike : ℝ) (iv : Option ℝ) (dte : ℕ)
    (providerDelta : Option ℝ) : Option ℝ :=
  match providerDelta with
  | some d => some d
  | none => bsPutDelta (some spot) (some strike) iv (some (dte : ℝ))

/-- The per-contract body of the loop over `puts` in the handler: all skip
conditions and the construction of the emitted row.  `minStrike = 0`,
`maxStrike = spot`. -/
noncomputable def buildCandidate (sym : String) (expDay : ℤ) (dte : ℕ) (spot : ℝ)
    (it : Put) : Option Candidate :=
  if expDayOf it.expiration ≠ some expDay then none
  else
    match it.strike with
    | none => none
    | some strike =>
      if strike ≥ spot ∨ strike < 0 then none
      else
        let delta := resolveDelta spot strike it.impliedVolatility dte it.delta
        let premiumO := midPremium it.bid it.ask it.lastPrice
        match it.bid with
        | none => none
        | some b =>
          if b ≤ 0 then none
          else
            match premiumO with
            | none => none
            | some prem =>
              if prem ≤ 0 then none
              else
                let win_rate := delta.map fun d => (1 - |d|) * 100
                let iv_pct := it.impliedVolatility.map fun v => v * 100
                let roi := b / strike * 100
                let roi_annualized : Option ℝ :=
                  if 0 < dte then some (b / strike * (365 / (dte : ℝ)) * 100) else none
                let emit : Option Candidate :=
                  if spot = 0 then none
                  else if strike / spot ≤ 0.85 then none
                  else some
                    { ticker := sym, spot := spot, strike := strike, bid := b,
                      ask := it.ask, premium := prem, iv := iv_pct, delta := delta,
                      pop := win_rate, moneyness := strike / spot, roi := roi,
                      roi_annualized := roi_annualized, dte := dte }
                match win_rate with
                | some w => if w < 90 then none else emit
                | none => emit

/-- The per-ticker body of the batch lambda: drop the ticker when the chain is
unavailable, the put list is empty, or the spot is null; otherwise run the
per-contract loop. -/
noncomputable def scanTicker (sym : String) (expDay : ℤ) (dte : ℕ)
    (chain : Option Chain) : List Candidate :=
  match chain with
  | none => []
  | some c =>
    match c.spot with
    | none => []
    | some spot =>
      if c.puts.isEmpty then []
      else c.puts.filterMap (buildCandidate sym expDay dte spot)

/-- All raw candidate rows pushed onto `out` in one run, given the chain each
ticker's fetch produced. -/
noncomputable def rawCandidates (inputs : List (String × Option Chain)) (expDay : ℤ)
    (dte : ℕ) : List Candidate :=
  (inputs.map fun p => scanTicker p.1 expDay dte p.2).flatten

/-! ## Definitions: best-per-ticker reduction and final sort -/

/-- The dedup score `row.roi_annualized ?? -Infinity`, modelled in `WithBot ℝ`. -/
def scoreW (c : Candidate) : WithBot ℝ :=
  match c.roi_annualized with
  | none => ⊥
  | some v => (v : WithBot ℝ)

/-- The sort key `x.roi_annualized ?? -1` of the final comparator. -/
def sortKey (c : Candidate) : ℝ := c.roi_annualized.getD (-1)

/-- Descending order on `sortKey`, the final `payloadArr.sort` comparator. -/
def rSort (a b : Candidate) : Prop := sortKey b ≤ sortKey a

instance : IsTotal Candidate rSort := ⟨fun a b => le_total (sortKey b) (sortKey a)⟩

instance : IsTrans Candidate rSort := ⟨fun _ _ _ h1 h2 => le_trans h2 h1⟩

/-- Lookup in an insertion-ordered association list (JS `Map.get`). -/
def lookupA : List (String × Candidate) → String → Option Candidate
  | [], _ => none
  | e :: es, k => if e.1 = k then some e.2 else lookupA es k

/-- In-place update of an existing key (JS `Map.set` on a present key keeps the
key's insertion position). -/
def updateA (m : List (String × Candidate)) (k : String) (v : Candidate) :
    List (String × Candidate) :=
  m.map fun e => if e.1 = k then (k, v) else e

/-- One step of the best-per-ticker reduction: keep the held row unless the new
row's score is strictly greater. -/
noncomputable def bestStep (m : List (String × Candidate)) (row : Candidate) :
    List (String × Candidate) :=
  match lookupA m row.ticker with
  | none => m ++ [(row.ticker, row)]
  | some prev => if scoreW prev < scoreW row then updateA m row.ticker row else m

/-- The `bestByTicker` map built over all raw rows, in push order. -/
noncomputable def bestByTicker (rows : List Candidate) : List (String × Candidate) :=
  rows.foldl bestStep []

/-- The final sort, descending on `roi_annualized ?? -1` (a stable sort, like
the JS engines' `Array.prototype.sort`). -/
noncomputable def sortCandidates (l : List Candidate) : List Candidate :=
  List.insertionSort rSort l

/-- The full pure tail of the handler: raw rows → best per ticker → sorted
payload array. -/
noncomputable def scanLive (inputs : List (String × Option Chain)) (expDay : ℤ)
    (dte : ℕ) : List Candidate :=
  sortCandidates ((bestByTicker (rawCandidates inputs expDay dte)).map Prod.snd)

/-- Proof-side predicate: `c` is the entry the reduction holds for ticker `t`
after processing `pre` — `c` occurs in `pre`, every earlier same-ticker row
scores strictly below it, and every later one scores at most it. -/
def keptFor (pre : List Candidate) (t : String) (c : Candidate) : Prop :=
  c.ticker = t ∧ ∃ l1 l2, pre = l1 ++ c :: l2 ∧
    (∀ c' ∈ l1, c'.ticker = t → scoreW c' < scoreW c) ∧
    (∀ c' ∈ l2, c'.ticker = t → scoreW c' ≤ scoreW c)

/-- Proof-side invariant of the best-per-ticker fold: distinct keys, every
entry is the kept row of its ticker, and every processed row's ticker has an
entry. -/
def mapInv (pre : List Candidate) (m : List (String × Candidate)) : Prop :=
  (m.map Prod.fst).Nodup ∧
  (∀ e ∈ m, keptFor pre e.1 e.2) ∧
  (∀ c' ∈ pre, ∃ e ∈ m, e.1 = c'.ticker)

/-- Proof-side predicate: the shape `roi_annualized` takes on every row the
pipeline can emit — `null`, or a strictly positive number. -/
def scoreOK (c : Candidate) : Prop :=
  c.roi_annualized = none ∨ ∃ v, c.roi_annualized = some v ∧ 0 < v

/-! ## Definitions: SessionManager and ChainFetcher state machine -/

/-- The shared `yahooSession` value. -/
structure Session where
  cookie : String
  crumb : String
  ts : ℕ

/-- Outcome of one outbound option-chain request. -/
inductive ChainNetResult where
  | ok (p : ChainPayload)
  | status401
  | httpErr
  | netThrow

/-- The run environment: the clock and the network oracle.  `chainResp n` is
the outcome of the `n`-th option-chain request of the process (counted by
`St.calls`); `cookieResp` / `crumbResp` are the session-handshake responses
(`none` = no cookie / failed crumb request). -/
structure Env where
  now : ℕ
  cookieResp : Option String
  crumbResp : Option String
  chainResp : ℕ → ChainNetResult

/-- The process-wide mutable state: `yahooSession`, `yahooChainCache` (an
insertion-ordered map keyed by the `"sym-expIso"` string), and the number of
option-chain requests issued so far. -/
structure St where
  session : Option Session
  cache : List (String × Option Chain)
  calls : ℕ

def FRESH_MS : ℕ := 10 * 60 * 1000

/-- The two-step cookie + crumb handshake of `ensureYahooSession`. -/
def handshake (env : Env) : Option Session :=
  match env.cookieResp with
  | none => none
  | some cookie =>
    match env.crumbResp with
    | none => none
    | some crumb => if crumb = "" then none else some ⟨cookie, crumb, env.now⟩

/-- `ensureYahooSession`: reuse the held credential while younger than
`FRESH_MS`, otherwise redo the handshake.  Returns the session to use (`none`
on failure; the caller leaves the global unchanged in that case). -/
def ensureYahooSession (env : Env) (s : Option Session) : Option Session :=
  match s with
  | some sess => if env.now - sess.ts < FRESH_MS then some sess else handshake env
  | none => handshake env

/-- Lookup in the chain cache. -/
def cacheLookup : List (String × Option Chain) → String → Option (Option Chain)
  | [], _ => none
  | e :: es, k => if e.1 = k then some e.2 else cacheLookup es k

/-- JS `Map.set`: replace in place when the key exists, append otherwise. -/
def cacheSet (m : List (String × Option Chain)) (k : String) (v : Option Chain) :
    List (String × Option Chain) :=
  if (cacheLookup m k).isSome then m.map fun e => if e.1 = k then (k, v) else e
  else m ++ [(k, v)]

/-- Extraction from a successful response body: the puts array and the spot
resolved from the quote block. -/
def parseChain (p : ChainPayload) : Chain := ⟨p.puts, resolveSpot p.quote⟩

/-- `fetchYahooOptions sym expIso`: memoized per-(ticker, expiry) chain fetch.
The result is `(Except.error ())` when a network error is thrown (the source
has no try/catch here, so a rejected `fetch` propagates), paired with the state
as mutated up to the throw.  On a 401, the session is nulled, re-acquired, and
the request retried exactly once; the retry's outcome is taken as the final
response.  Any completed outcome (`null` included) is memoized. -/
def fetchYahooOptions (env : Env) (st : St) (sym expIso : String) :
    Except Unit (Option Chain) × St :=
  let cacheKey := sym ++ "-" ++ expIso
  match cacheLookup st.cache cacheKey with
  | some v => (.ok v, st)
  | none =>
    match ensureYahooSession env st.session with
    | none => (.ok none, ⟨st.session, cacheSet st.cache cacheKey none, st.calls⟩)
    | some session =>
      match env.chainResp st.calls with
      | .netThrow => (.error (), ⟨some session, st.cache, st.calls + 1⟩)
      | .status401 =>
        match ensureYahooSession env none with
        | none => (.ok none, ⟨none, cacheSet st.cache cacheKey none, st.calls + 1⟩)
        | some fresh =>
          match env.chainResp (st.calls + 1) with
          | .netThrow => (.error (), ⟨some fresh, st.cache, st.calls + 2⟩)
          | .ok p =>
            (.ok (some (parseChain p)),
              ⟨some fresh, cacheSet st.cache cacheKey (some (parseChain p)), st.calls + 2⟩)
          | .status401 =>
            (.ok none, ⟨some fresh, cacheSet st.cache cacheKey none, st.calls + 2⟩)
          | .httpErr =>
            (.ok none, ⟨some fresh, cacheSet st.cache cacheKey none, st.calls + 2⟩)
      | .httpErr =>
        (.ok none, ⟨some session, cacheSet st.cache cacheKey none, st.calls + 1⟩)
      | .ok p =>
        (.ok (some (parseChain p)),
          ⟨some session, cacheSet st.cache cacheKey (some (parseChain p)), st.calls + 1⟩)

/-- One ticker's unit of work as the orchestrator sees it after
`Promise.allSettled`: a thrown fetch becomes an ignored rejection (no rows),
never a failure of the batch. -/
noncomputable def settleTicker (env : Env) (expDay : ℤ) (dte : ℕ) (expIso : String)
    (st : St) (sym : String) : List Candidate × St :=
  match fetchYahooOptions env st sym expIso with
  | (.error _, st1) => ([], st1)
  | (.ok ch, st1) => (scanTicker sym expDay dte ch, st1)

/-! ## Definitions: spec-side model for the refinement refutation of spot
resolution -/

/-- Modelled from the spec: first finite positive value of a preference list. -/
noncomputable def firstPosNum : List (Option ℝ) → Option ℝ
  | [] => none
  | none :: rest => firstPosNum rest
  | some v :: rest => if 0 < v then some v else firstPosNum rest

/-- Modelled from the spec (§4.4): "resolve the underlying spot by trying, in
order: regular market price, bid, ask, previous close — the first finite
positive value found wins; if none is found, return null". -/
noncomputable def resolveSpotSpec (q : Quote) : Option ℝ :=
  firstPosNum [q.regularMarketPrice, q.bid, q.ask, q.previousClose]

/-! ## Definitions: concrete scenario data -/

/-- Scenario A contract: bid 1.00, ask 1.20, provider delta −0.08, iv 0.30,
expiring on day 1 (timestamp 86400 s). -/
noncomputable def scenAPut : Put :=
  ⟨some 86400, some 90, some 0.30, some (-0.08), some 1, some 1.2, none⟩

/-- The row the handler emits for Scenario A (spot 100, dte 7). -/
noncomputable def scenACand : Candidate :=
  { ticker := "A", spot := 100, strike := 90, bid := 1, ask := some 1.2,
    premium := 1.1, iv := some 30, delta := some (-0.08), pop := some 92,
    moneyness := 0.9, roi := 10 / 9, roi_annualized := some (3650 / 63), dte := 7 }

/-- A contract whose provider-supplied delta is the (nonsensical but finite)
value +0.05, which the source copies through unchecked. -/
noncomputable def posDeltaPut : Put :=
  ⟨some 86400, some 90, some 0.30, some 0.05, some 1, some 1.2, none⟩

/-- The row emitted for `posDeltaPut` (spot 100, dte 7): its `delta` is +0.05,
outside `[-1, 0]`. -/
noncomputable def posDeltaCand : Candidate :=
  { ticker := "B", spot := 100, strike := 90, bid := 1, ask := some 1.2,
    premium := 1.1, iv := some 30, delta := some 0.05, pop := some 95,
    moneyness := 0.9, roi := 10 / 9, roi_annualized := some (3650 / 63), dte := 7 }

/-- A contract with neither a provider delta nor a usable implied volatility:
its delta is unresolvable, so its probability of profit is null. -/
noncomputable def noDeltaPut : Put :=
  ⟨some 86400, some 90, none, none, some 1, some 1.2, none⟩

/-- Two same-ticker candidates with equal annualized ROI (tie-break data). -/
noncomputable def tieCandX : Candidate :=
  { ticker := "XYZ", spot := 100, strike := 90, bid := 1, ask := none,
    premium := 1, iv := none, delta := none, pop := none, moneyness := 0.9,
    roi := 10 / 9, roi_annualized := some 40, dte := 7 }

/-- Same ticker and score as `tieCandX`, pushed later. -/
noncomputable def tieCandY : Candidate :=
  { ticker := "XYZ", spot := 200, strike := 180, bid := 2, ask := none,
    premium := 2, iv := none, delta := none, pop := none, moneyness := 0.9,
    roi := 10 / 9, roi_annualized := some 40, dte := 7 }

/-- The empty initial process state. -/
def st0 : St := ⟨none, [], 0⟩

/-- Network oracle answering 401 to the first chain request and a non-2xx
error to every later one; handshake succeeds. -/
def env401 : Env := ⟨0, some "ck", some "cr", fun n => if n = 0 then .status401 else .httpErr⟩

/-- Network oracle whose chain requests always throw; handshake succeeds. -/
def envThrow : Env := ⟨0, some "ck", some "cr", fun _ => .netThrow⟩

/-- A quote block with `regularMarketPrice = 0` and `bid = 100`. -/
noncomputable def qZero : Quote := ⟨some 0, some 100, none, none⟩

/-- A quote block with no finite field at all. -/
def qNone : Quote := ⟨none, none, none, none⟩

/-- Network oracle that returns a valid, empty chain whose quote has no
resolvable spot; handshake succeeds. -/
def envNoSpot : Env := ⟨0, some "ck", some "cr", fun _ => .ok ⟨[], qNone⟩⟩

/-! ## Theorems: range of the Abramowitz–Stegun approximation -/

theorem polyAS_eq_mul (k : ℝ) : polyAS k = k * qAS k := by
  unfold polyAS qAS; ring

theorem qAS_nonneg {k : ℝ} (h0 : 0 ≤ k) (h1 : k ≤ 1) : 0 ≤ qAS k := by
  unfold qAS
  nlinarith [sq_nonneg k, sq_nonneg (k - 0.113), sq_nonneg (k * k - k), mul_nonneg h0 h0,
    mul_nonneg (mul_nonneg h0 h0) h0, sq_nonneg (k * k - 0.6845 * k)]

theorem qAS_le {k : ℝ} (h0 : 0 ≤ k) (h1 : k ≤ 1) : qAS k ≤ 1.31 := by
  unfold qAS
  nlinarith [sq_nonneg k, sq_nonneg (1 - k), mul_nonneg h0 (sq_nonneg (1 - k)),
    mul_nonneg (mul_nonneg h0 h0) h0, sq_nonneg (k * k - k), sq_nonneg (k - 1),
    mul_nonneg (sq_nonneg k) (sub_nonneg.mpr h1)]

theorem polyAS_nonneg {k : ℝ} (h0 : 0 ≤ k) (h1 : k ≤ 1) : 0 ≤ polyAS k := by
  rw [polyAS_eq_mul]; exact mul_nonneg h0 (qAS_nonneg h0 h1)

theorem polyAS_le {k : ℝ} (h0 : 0 ≤ k) (h1 : k ≤ 1) : polyAS k ≤ 1.31 := by
  rw [polyAS_eq_mul]
  calc k * qAS k ≤ 1 * qAS k :=
        mul_le_mul_of_nonneg_right h1 (qAS_nonneg h0 h1)
    _ = qAS k := one_mul _
    _ ≤ 1.31 := qAS_le h0 h1

theorem kAS_pos (x : ℝ) : 0 < 1 / (1 + 0.2316419 * |x|) := by
  have : (0:ℝ) < 1 + 0.2316419 * |x| := by positivity
  positivity

theorem kAS_le_one (x : ℝ) : 1 / (1 + 0.2316419 * |x|) ≤ 1 := by
  have h : (1:ℝ) ≤ 1 + 0.2316419 * |x| := by
    have := abs_nonneg x
    nlinarith
  rw [div_le_one (by linarith)]
  exact h

theorem sqrt_two_pi_gt : (2.5:ℝ) < Real.sqrt (2 * Real.pi) := by
  have h1 : (3.14:ℝ) < Real.pi := Real.pi_gt_d2
  rw [show (2.5:ℝ) = Real.sqrt (2.5 ^ 2) by rw [Real.sqrt_sq (by norm_num)]]
  apply Real.sqrt_lt_sqrt (by norm_num)
  nlinarith

/-- The correction term `(1/√(2π))·exp(-x²/2)·poly(k)` lies in `[0, 0.524]`. -/
theorem normCdf_term_bounds (x : ℝ) :
    0 ≤ 1 / Real.sqrt (2 * Real.pi) * Real.exp (-0.5 * (x * x))
        * polyAS (1 / (1 + 0.2316419 * |x|)) ∧
      1 / Real.sqrt (2 * Real.pi) * Real.exp (-0.5 * (x * x))
        * polyAS (1 / (1 + 0.2316419 * |x|)) ≤ 0.524 := by
  have hk0 : (0:ℝ) ≤ 1 / (1 + 0.2316419 * |x|) := le_of_lt (kAS_pos x)
  have hk1 := kAS_le_one x
  have hp0 := polyAS_nonneg hk0 hk1
  have hp1 := polyAS_le hk0 hk1
  have hs : (2.5:ℝ) < Real.sqrt (2 * Real.pi) := sqrt_two_pi_gt
  have hspos : (0:ℝ) < Real.sqrt (2 * Real.pi) := by linarith
  have hinv0 : (0:ℝ) ≤ 1 / Real.sqrt (2 * Real.pi) := by positivity
  have hinv : 1 / Real.sqrt (2 * Real.pi) ≤ 0.4 := by
    rw [div_le_iff₀ hspos]; nlinarith
  have he0 : (0:ℝ) < Real.exp (-0.5 * (x * x)) := Real.exp_pos _
  have he1 : Real.exp (-0.5 * (x * x)) ≤ 1 := by
    rw [Real.exp_le_one_iff]; nlinarith [sq_nonneg x]
  constructor
  · exact mul_nonneg (mul_nonneg hinv0 (le_of_lt he0)) hp0
  · calc 1 / Real.sqrt (2 * Real.pi) * Real.exp (-0.5 * (x * x))
          * polyAS (1 / (1 + 0.2316419 * |x|))
        ≤ 0.4 * 1 * 1.31 := by
          apply mul_le_mul _ hp1 hp0 (by norm_num)
          apply mul_le_mul hinv he1 (le_of_lt he0) (by norm_num)
    _ = 0.524 := by norm_num

theorem normCdf_nonneg (x : ℝ) : 0 ≤ normCdf x := by
  obtain ⟨h0, h1⟩ := normCdf_term_bounds x
  unfold normCdf
  split <;> simp only <;> linarith

theorem normCdf_le_one (x : ℝ) : normCdf x ≤ 1 := by
  obtain ⟨h0, h1⟩ := normCdf_term_bounds x
  unfold normCdf
  split <;> simp only <;> linarith

theorem normCdf_sub_one_mem (y : ℝ) : -1 ≤ normCdf y - 1 ∧ normCdf y - 1 ≤ 0 := by
  have h0 := normCdf_nonneg y
  have h1 := normCdf_le_one y
  constructor <;> linarith

/-! ## Theorems: symmetry of `normCdf` and its value at 0 -/

theorem polyAS_one : polyAS 1 = 1.253314136 := by
  unfold polyAS; norm_num

theorem normCdf_neg_of_ne {x : ℝ} (hx : x ≠ 0) : normCdf (-x) = 1 - normCdf x := by
  unfold normCdf
  simp only [abs_neg, neg_mul_neg]
  rcases hx.lt_or_lt with h | h
  · rw [if_neg (by simp only [not_lt]; linarith : ¬ -x < 0), if_pos h]
    ring
  · rw [if_pos (by linarith : -x < 0), if_neg (by simp only [not_lt]; linarith : ¬ x < 0)]

theorem normCdf_zero_eq : normCdf 0 = 1 - 1.253314136 / Real.sqrt (2 * Real.pi) := by
  unfold normCdf
  rw [if_neg (lt_irrefl 0)]
  simp only [abs_zero, mul_zero, add_zero, zero_mul, neg_zero, Real.exp_zero]
  rw [show (1:ℝ) / 1 = 1 by norm_num, polyAS_one]
  ring

theorem sqrt_two_pi_gt_tight : (2.506628:ℝ) < Real.sqrt (2 * Real.pi) := by
  have h1 : (3.141592:ℝ) < Real.pi := Real.pi_gt_d6
  rw [show (2.506628:ℝ) = Real.sqrt (2.506628 ^ 2) by rw [Real.sqrt_sq (by norm_num)]]
  apply Real.sqrt_lt_sqrt (by norm_num)
  nlinarith

theorem sqrt_two_pi_lt_tight : Real.sqrt (2 * Real.pi) < 2.506629 := by
  have h1 : Real.pi < 3.141593 := Real.pi_lt_d6
  have h0 : (0:ℝ) ≤ 2 * Real.pi := by positivity
  nlinarith [Real.sq_sqrt h0, Real.sqrt_nonneg (2 * Real.pi)]

theorem normCdf_zero_near_half : |normCdf 0 - 0.5| < 1e-6 := by
  rw [normCdf_zero_eq]
  have h1 := sqrt_two_pi_gt_tight
  have h2 := sqrt_two_pi_lt_tight
  have hpos : (0:ℝ) < Real.sqrt (2 * Real.pi) := by linarith
  have hlow : (1.253314136:ℝ) / Real.sqrt (2 * Real.pi) < 1.253314136 / 2.506628 :=
    div_lt_div_of_pos_left (by norm_num) (by norm_num) h1
  have hhigh : (1.253314136:ℝ) / 2.506629 < 1.253314136 / Real.sqrt (2 * Real.pi) :=
    div_lt_div_of_pos_left (by norm_num) hpos h2
  have e1 : (1.253314136:ℝ) / 2.506628 < 0.5000001 := by norm_num
  have e2 : (0.4999997:ℝ) < 1.253314136 / 2.506629 := by norm_num
  rw [abs_lt]
  constructor <;> · simp only [neg_lt, lt_sub_iff_add_lt, sub_lt_iff_lt_add] <;> nlinarith

/-- At `x = 0` the reflection identity fails exactly: it would force
`√(2π) = 2 × 1.253314136`, i.e. `π = 2 × 1.253314136²`, which is below the
known lower bound on `π`. -/
theorem normCdf_zero_ne_half : normCdf 0 ≠ 0.5 := by
  rw [normCdf_zero_eq]
  intro h
  have hpos : (0:ℝ) < Real.sqrt (2 * Real.pi) := by
    have := sqrt_two_pi_gt_tight; linarith
  have hsq : Real.sqrt (2 * Real.pi) ^ 2 = 2 * Real.pi :=
    Real.sq_sqrt (by positivity)
  have heq : (1.253314136:ℝ) / Real.sqrt (2 * Real.pi) = 0.5 := by linarith
  have heq2 : (1.253314136:ℝ) = 0.5 * Real.sqrt (2 * Real.pi) := by
    rw [div_eq_iff (ne_of_gt hpos)] at heq
    linarith
  have hpi : Real.pi = 2 * 1.253314136 ^ 2 := by nlinarith
  have := Real.pi_gt_d20
  rw [hpi] at this
  norm_num at this

/-! ## Theorems: `bsPutDelta` input/output contract -/

theorem badNumArg_none : badNumArg none := Or.inl rfl

theorem badNumArg_some {v : ℝ} : badNumArg (some v) ↔ v ≤ 0 := by
  unfold badNumArg; simp

theorem bsPutDelta_pos_inputs {S K v : ℝ} (hS : 0 < S) (hK : 0 < K) (hv : 0 < v)
    (dte : Option ℝ) :
    ∃ r, bsPutDelta (some S) (some K) (some v) dte = some r ∧ -1 ≤ r ∧ r ≤ 0 := by
  simp only [bsPutDelta]
  rw [if_neg (by push_neg; exact ⟨hS, hK⟩), if_neg (not_le.mpr hv)]
  exact ⟨_, rfl, (normCdf_sub_one_mem _).1, (normCdf_sub_one_mem _).2⟩

theorem bsPutDelta_eq_none_iff (spot strike iv dte : Option ℝ) :
    bsPutDelta spot strike iv dte = none ↔
      badNumArg spot ∨ badNumArg strike ∨ badNumArg iv := by
  match spot, strike with
  | none, none => simp [bsPutDelta, badNumArg_none]
  | none, some K => simp [bsPutDelta, badNumArg_none]
  | some S, none => simp [bsPutDelta, badNumArg_none]
  | some S, some K =>
    match iv with
    | none =>
      by_cases hSK : S ≤ 0 ∨ K ≤ 0 <;>
        simp [bsPutDelta, hSK, badNumArg_none]
    | some w =>
      simp only [badNumArg_some]
      by_cases hSK : S ≤ 0 ∨ K ≤ 0
      · rcases hSK with h | h <;> simp [bsPutDelta, h]
      · by_cases hw : w ≤ 0
        · simp [bsPutDelta, hSK, hw]
        · push_neg at hSK
          simp [bsPutDelta, not_le.mpr hSK.1, not_le.mpr hSK.2, hw]

/-! ## Theorems: CandidateBuilder evaluation and inversion -/

/-- Forward evaluation of the per-contract loop body: when every skip guard
passes, the row pushed is exactly the record below. -/
theorem buildCandidate_emit {sym : String} {expDay : ℤ} {dte : ℕ} {spot : ℝ}
    {it : Put} {K b prem : ℝ}
    (hexp : expDayOf it.expiration = some expDay)
    (hK : it.strike = some K) (hKw : ¬(K ≥ spot ∨ K < 0))
    (hb : it.bid = some b) (hbpos : 0 < b)
    (hprem : midPremium it.bid it.ask it.lastPrice = some prem) (hppos : 0 < prem)
    (hspot : spot ≠ 0) (hm : 0.85 < K / spot)
    (hpop : ∀ d, resolveDelta spot K it.impliedVolatility dte it.delta = some d →
      ¬ ((1 - |d|) * 100 < 90)) :
    buildCandidate sym expDay dte spot it = some
      { ticker := sym, spot := spot, strike := K, bid := b, ask := it.ask,
        premium := prem, iv := it.impliedVolatility.map fun v => v * 100,
        delta := resolveDelta spot K it.impliedVolatility dte it.delta,
        pop := (resolveDelta spot K it.impliedVolatility dte it.delta).map
          fun d => (1 - |d|) * 100,
        moneyness := K / spot, roi := b / K * 100,
        roi_annualized :=
          if 0 < dte then some (b / K * (365 / (dte : ℝ)) * 100) else none,
        dte := dte } := by
  have hne : ¬ expDayOf it.expiration ≠ some expDay := by simp [hexp]
  have hnb : ¬ b ≤ 0 := not_le.mpr hbpos
  have hnp : ¬ prem ≤ 0 := not_le.mpr hppos
  have hnm : ¬ K / spot ≤ 0.85 := not_le.mpr hm
  have hprem' : midPremium (some b) it.ask it.lastPrice = some prem := by
    rw [← hb]; exact hprem
  cases hd : resolveDelta spot K it.impliedVolatility dte it.delta with
  | none =>
    simp only [buildCandidate, hne, hK, hb, hprem', hKw, hnb, hnp, hspot, hnm, hd,
      Option.map_none', if_true, if_false, ite_false, ite_true]
  | some d =>
    have h90 : ¬ ((1 - |d|) * 100 < 90) := hpop d hd
    simp only [buildCandidate, hne, hK, hb, hprem', hKw, hnb, hnp, hspot, hnm, hd, h90,
      Option.map_some', if_true, if_false, ite_false, ite_true]

/-- Inversion of the per-contract loop body: every emitted row arose from a
contract passing all the guards, and its fields are determined as below. -/
theorem buildCandidate_eq_some {sym : String} {expDay : ℤ} {dte : ℕ} {spot : ℝ}
    {it : Put} {c : Candidate}
    (h : buildCandidate sym expDay dte spot it = some c) :
    expDayOf it.expiration = some expDay ∧
    ∃ K b prem,
      it.strike = some K ∧ ¬ (K ≥ spot ∨ K < 0) ∧
      it.bid = some b ∧ 0 < b ∧
      midPremium it.bid it.ask it.lastPrice = some prem ∧ 0 < prem ∧
      spot ≠ 0 ∧ 0.85 < K / spot ∧
      (∀ d, resolveDelta spot K it.impliedVolatility dte it.delta = some d →
        ¬ ((1 - |d|) * 100 < 90)) ∧
      c = { ticker := sym, spot := spot, strike := K, bid := b, ask := it.ask,
            premium := prem, iv := it.impliedVolatility.map fun v => v * 100,
            delta := resolveDelta spot K it.impliedVolatility dte it.delta,
            pop := (resolveDelta spot K it.impliedVolatility dte it.delta).map
              fun d => (1 - |d|) * 100,
            moneyness := K / spot, roi := b / K * 100,
            roi_annualized :=
              if 0 < dte then some (b / K * (365 / (dte : ℝ)) * 100) else none,
            dte := dte } := by
  by_cases h1 : expDayOf it.expiration ≠ some expDay
  · unfold buildCandidate at h; rw [if_pos h1] at h; exact absurd h (by simp)
  push_neg at h1
  refine ⟨h1, ?_⟩
  cases hK : it.strike with
  | none => simp [buildCandidate, h1, hK] at h
  | some K =>
  by_cases h2 : K ≥ spot ∨ K < 0
  · simp [buildCandidate, h1, hK, h2] at h
  cases hb : it.bid with
  | none => simp [buildCandidate, h1, hK, h2, hb] at h
  | some b =>
  by_cases h3 : b ≤ 0
  · simp [buildCandidate, h1, hK, h2, hb, h3] at h
  cases hpr : midPremium (some b) it.ask it.lastPrice with
  | none => simp [buildCandidate, h1, hK, h2, hb, h3, hpr] at h
  | some prem =>
  by_cases h4 : prem ≤ 0
  · simp [buildCandidate, h1, hK, h2, hb, h3, hpr, h4] at h
  cases hd : resolveDelta spot K it.impliedVolatility dte it.delta with
  | none =>
    by_cases h5 : spot = 0
    · subst h5; simp [buildCandidate, h1, hK, h2, hb, h3, hpr, h4, hd] at h
    by_cases h6 : K / spot ≤ 0.85
    · simp [buildCandidate, h1, hK, h2, hb, h3, hpr, h4, hd, h5, h6] at h
    have hpop : ∀ d', resolveDelta spot K it.impliedVolatility dte it.delta = some d' →
        ¬ ((1 - |d'|) * 100 < 90) := by
      intro d' hd'; rw [hd] at hd'; cases hd'
    have hprem : midPremium it.bid it.ask it.lastPrice = some prem := by
      rw [hb]; exact hpr
    refine ⟨K, b, prem, rfl, h2, rfl, not_le.mp h3, rfl, not_le.mp h4,
      h5, not_le.mp h6, hpop, ?_⟩
    have hemit := @buildCandidate_emit sym expDay dte spot it K b prem h1 hK h2 hb
      (not_le.mp h3) hprem (not_le.mp h4) h5 (not_le.mp h6) hpop
    rw [hemit] at h
    exact (Option.some.inj h).symm
  | some d =>
    by_cases h7 : (1 - |d|) * 100 < 90
    · simp [buildCandidate, h1, hK, h2, hb, h3, hpr, h4, hd, h7] at h
    by_cases h5 : spot = 0
    · subst h5; simp [buildCandidate, h1, hK, h2, hb, h3, hpr, h4, hd, h7] at h
    by_cases h6 : K / spot ≤ 0.85
    · simp [buildCandidate, h1, hK, h2, hb, h3, hpr, h4, hd, h7, h5, h6] at h
    have hpop : ∀ d', resolveDelta spot K it.impliedVolatility dte it.delta = some d' →
        ¬ ((1 - |d'|) * 100 < 90) := by
      intro d' hd'
      rw [hd] at hd'
      rw [← Option.some.inj hd']
      exact h7
    have hprem : midPremium it.bid it.ask it.lastPrice = some prem := by
      rw [hb]; exact hpr
    refine ⟨K, b, prem, rfl, h2, rfl, not_le.mp h3, rfl, not_le.mp h4,
      h5, not_le.mp h6, hpop, ?_⟩
    have hemit := @buildCandidate_emit sym expDay dte spot it K b prem h1 hK h2 hb
      (not_le.mp h3) hprem (not_le.mp h4) h5 (not_le.mp h6) hpop
    rw [hemit] at h
    exact (Option.some.inj h).symm

/-! ## Theorems: the best-per-ticker reduction -/

theorem lookupA_eq_none_iff (m : List (String × Candidate)) (k : String) :
    lookupA m k = none ↔ ∀ e ∈ m, e.1 ≠ k := by
  induction m with
  | nil => simp [lookupA]
  | cons e es ih =>
    by_cases he : e.1 = k
    · simp [lookupA, he]
    · simp [lookupA, he, ih]

theorem lookupA_mem {m : List (String × Candidate)} {k : String} {v : Candidate}
    (h : lookupA m k = some v) : (k, v) ∈ m := by
  induction m with
  | nil => cases h
  | cons e es ih =>
    by_cases he : e.1 = k
    · rw [lookupA, if_pos he] at h
      obtain ⟨a, b⟩ := e
      obtain rfl : a = k := he
      obtain rfl : b = v := Option.some.inj h
      exact List.mem_cons_self _ _
    · rw [lookupA, if_neg he] at h
      exact List.mem_cons_of_mem _ (ih h)

theorem lookupA_of_nodup {m : List (String × Candidate)} (hnd : (m.map Prod.fst).Nodup)
    {e : String × Candidate} (he : e ∈ m) : lookupA m e.1 = some e.2 := by
  induction m with
  | nil => cases he
  | cons f fs ih =>
    rw [List.map_cons, List.nodup_cons] at hnd
    rcases List.mem_cons.mp he with rfl | hm
    · rw [lookupA, if_pos rfl]
    · have hne : f.1 ≠ e.1 := by
        intro heq
        exact hnd.1 (heq ▸ List.mem_map_of_mem Prod.fst hm)
      rw [lookupA, if_neg hne]
      exact ih hnd.2 hm

theorem updateA_map_fst (m : List (String × Candidate)) (k : String) (v : Candidate) :
    (updateA m k v).map Prod.fst = m.map Prod.fst := by
  unfold updateA
  rw [List.map_map]
  apply List.map_congr_left
  intro e _
  by_cases he : e.1 = k
  · simp [he]
  · simp [he]

theorem mem_updateA {m : List (String × Candidate)} {k : String} {v : Candidate}
    {e' : String × Candidate} (h : e' ∈ updateA m k v) :
    e' = (k, v) ∨ (e' ∈ m ∧ e'.1 ≠ k) := by
  unfold updateA at h
  obtain ⟨e, hem, heq⟩ := List.mem_map.mp h
  by_cases he : e.1 = k
  · rw [if_pos he] at heq
    exact Or.inl heq.symm
  · rw [if_neg he] at heq
    exact Or.inr ⟨heq ▸ hem, heq ▸ he⟩

theorem mem_updateA_of_ne {m : List (String × Candidate)} {k : String} {v : Candidate}
    {e : String × Candidate} (he : e ∈ m) (hne : e.1 ≠ k) : e ∈ updateA m k v := by
  unfold updateA
  exact List.mem_map.mpr ⟨e, he, by rw [if_neg hne]⟩

theorem updateA_mem_self {m : List (String × Candidate)} {k : String} (v : Candidate)
    {e : String × Candidate} (he : e ∈ m) (hk : e.1 = k) : (k, v) ∈ updateA m k v := by
  unfold updateA
  exact List.mem_map.mpr ⟨e, he, by rw [if_pos hk]⟩

theorem keptFor_le {pre : List Candidate} {t : String} {c : Candidate}
    (h : keptFor pre t c) : ∀ c' ∈ pre, c'.ticker = t → scoreW c' ≤ scoreW c := by
  obtain ⟨hc, l1, l2, rfl, h1, h2⟩ := h
  intro c' hc' ht
  rcases List.mem_append.mp hc' with hm | hm
  · exact le_of_lt (h1 c' hm ht)
  · rcases List.mem_cons.mp hm with rfl | hm
    · exact le_refl _
    · exact h2 c' hm ht

theorem keptFor_extend {pre : List Candidate} {t : String} {c row : Candidate}
    (h : keptFor pre t c) (hle : row.ticker = t → scoreW row ≤ scoreW c) :
    keptFor (pre ++ [row]) t c := by
  obtain ⟨hc, l1, l2, rfl, h1, h2⟩ := h
  refine ⟨hc, l1, l2 ++ [row], by simp, h1, ?_⟩
  intro c' hm ht
  rcases List.mem_append.mp hm with hm | hm
  · exact h2 c' hm ht
  · obtain rfl : c' = row := List.mem_singleton.mp hm
    exact hle ht

theorem mapInv_step {pre : List Candidate} {m : List (String × Candidate)}
    {row : Candidate} (h : mapInv pre m) : mapInv (pre ++ [row]) (bestStep m row) := by
  obtain ⟨hnd, hkept, hcov⟩ := h
  unfold bestStep
  cases hlk : lookupA m row.ticker with
  | none =>
    have hnok : ∀ e ∈ m, e.1 ≠ row.ticker := (lookupA_eq_none_iff m row.ticker).mp hlk
    refine ⟨?_, ?_, ?_⟩
    · rw [List.map_append]
      refine List.Nodup.append hnd (List.nodup_singleton _) ?_
      intro a ha hb
      simp only [List.map_cons, List.map_nil, List.mem_singleton] at hb
      obtain ⟨e, he, rfl⟩ := List.mem_map.mp ha
      exact hnok e he hb
    · intro e he
      rcases List.mem_append.mp he with hm | hm
      · exact keptFor_extend (hkept e hm) fun hteq => absurd hteq.symm (hnok e hm)
      · obtain rfl : e = (row.ticker, row) := List.mem_singleton.mp hm
        refine ⟨rfl, pre, [], by simp, ?_, by simp⟩
        intro c' hc' ht
        obtain ⟨e', he', hk⟩ := hcov c' hc'
        exact absurd (hk.trans ht) (hnok e' he')
    · intro c' hc'
      rcases List.mem_append.mp hc' with hm | hm
      · obtain ⟨e, he, hk⟩ := hcov c' hm
        exact ⟨e, List.mem_append_left _ he, hk⟩
      · have hcr : c' = row := List.mem_singleton.mp hm
        exact ⟨(row.ticker, row), List.mem_append_right _ (by simp), by rw [hcr]⟩
  | some prev =>
    have hmem : (row.ticker, prev) ∈ m := lookupA_mem hlk
    have hkprev : keptFor pre row.ticker prev := hkept _ hmem
    show mapInv (pre ++ [row]) (if scoreW prev < scoreW row then updateA m row.ticker row else m)
    by_cases hlt : scoreW prev < scoreW row
    · rw [if_pos hlt]
      refine ⟨by rw [updateA_map_fst]; exact hnd, ?_, ?_⟩
      · intro e' he'
        rcases mem_updateA he' with rfl | ⟨hm, hne⟩
        · refine ⟨rfl, pre, [], by simp, ?_, by simp⟩
          intro c' hc' ht
          exact lt_of_le_of_lt (keptFor_le hkprev c' hc' ht) hlt
        · exact keptFor_extend (hkept e' hm) fun hteq => absurd hteq.symm hne
      · intro c' hc'
        rcases List.mem_append.mp hc' with hm | hm
        · obtain ⟨e, he, hk⟩ := hcov c' hm
          by_cases hek : e.1 = row.ticker
          · exact ⟨(row.ticker, row), updateA_mem_self row he hek, hek ▸ hk⟩
          · exact ⟨e, mem_updateA_of_ne he hek, hk⟩
        · have hcr : c' = row := List.mem_singleton.mp hm
          exact ⟨(row.ticker, row), updateA_mem_self row hmem rfl, by rw [hcr]⟩
    · rw [if_neg hlt]
      refine ⟨hnd, ?_, ?_⟩
      · intro e he
        apply keptFor_extend (hkept e he)
        intro hteq
        have hlook : lookupA m e.1 = some e.2 := lookupA_of_nodup hnd he
        rw [← hteq, hlk] at hlook
        obtain rfl : prev = e.2 := Option.some.inj hlook
        exact not_lt.mp hlt
      · intro c' hc'
        rcases List.mem_append.mp hc' with hm | hm
        · exact hcov c' hm
        · have hcr : c' = row := List.mem_singleton.mp hm
          exact ⟨(row.ticker, prev), hmem, by rw [hcr]⟩

theorem mapInv_foldl (rows : List Candidate) :
    ∀ (pre : List Candidate) (m : List (String × Candidate)), mapInv pre m →
      mapInv (pre ++ rows) (rows.foldl bestStep m) := by
  induction rows with
  | nil => intro pre m h; simpa using h
  | cons r rs ih =>
    intro pre m h
    have := ih (pre ++ [r]) (bestStep m r) (mapInv_step h)
    simpa using this

theorem bestByTicker_inv (rows : List Candidate) : mapInv rows (bestByTicker rows) := by
  have h0 : mapInv [] ([] : List (String × Candidate)) :=
    ⟨List.nodup_nil, by simp, by simp⟩
  have := mapInv_foldl rows [] [] h0
  simpa [bestByTicker] using this

theorem bestByTicker_keptFor {rows : List Candidate} {t : String} {c : Candidate}
    (h : lookupA (bestByTicker rows) t = some c) : keptFor rows t c :=
  (bestByTicker_inv rows).2.1 (t, c) (lookupA_mem h)

/-! ## Theorems: the final sort -/

theorem sortCandidates_perm (l : List Candidate) : List.Perm (sortCandidates l) l :=
  List.perm_insertionSort rSort l

theorem sortCandidates_sorted (l : List Candidate) : List.Sorted rSort (sortCandidates l) :=
  List.sorted_insertionSort rSort l

theorem scoreW_le_of_sortKey {a b : Candidate} (hb : scoreOK b)
    (h : sortKey b ≤ sortKey a) : scoreW b ≤ scoreW a := by
  rcases hb with hb | ⟨vb, hb, hvb⟩
  · simp [scoreW, hb]
  · cases ha : a.roi_annualized with
    | none =>
      exfalso
      rw [sortKey, sortKey, ha, hb] at h
      simp only [Option.getD_some, Option.getD_none] at h
      linarith
    | some va =>
      rw [sortKey, sortKey, ha, hb] at h
      simp only [Option.getD_some] at h
      simp only [scoreW, ha, hb]
      exact_mod_cast h

theorem sorted_scoreW {l : List Candidate} (hok : ∀ c ∈ l, scoreOK c)
    (hs : List.Sorted rSort l) : l.Pairwise fun a b => scoreW b ≤ scoreW a := by
  refine List.Pairwise.imp_of_mem ?_ hs
  intro a b ha hb hr
  exact scoreW_le_of_sortKey (hok b hb) hr

/-! ## Theorems: every pipeline row has a null or strictly positive score -/

theorem buildCandidate_scoreOK {sym : String} {expDay : ℤ} {dte : ℕ} {spot : ℝ}
    {it : Put} {c : Candidate} (h : buildCandidate sym expDay dte spot it = some c) :
    scoreOK c := by
  obtain ⟨-, K, b, prem, hK, h2, hb, hbpos, hpr, hppos, hspot, hm, hpop, rfl⟩ :=
    buildCandidate_eq_some h
  push_neg at h2
  have hspos : 0 < spot := lt_of_le_of_lt h2.2 h2.1
  have hKpos : 0 < K := by
    have := (lt_div_iff hspos).mp hm
    nlinarith
  by_cases hdte : 0 < dte
  · right
    refine ⟨b / K * (365 / (dte : ℝ)) * 100, by simp [scoreOK, hdte], ?_⟩
    have hdte' : (0:ℝ) < (dte : ℝ) := by exact_mod_cast hdte
    have : 0 < b / K := div_pos hbpos hKpos
    have : (0:ℝ) < 365 / (dte : ℝ) := div_pos (by norm_num) hdte'
    positivity
  · left
    simp [scoreOK, hdte]

theorem mem_scanTicker {sym : String} {expDay : ℤ} {dte : ℕ} {ch : Option Chain}
    {c : Candidate} (h : c ∈ scanTicker sym expDay dte ch) :
    ∃ spot it, buildCandidate sym expDay dte spot it = some c := by
  cases ch with
  | none => simp [scanTicker] at h
  | some chain =>
    cases hsp : chain.spot with
    | none => simp [scanTicker, hsp] at h
    | some spot =>
      by_cases he : chain.puts.isEmpty = true
      · simp [scanTicker, hsp, he] at h
      · simp only [scanTicker, hsp, he, if_false, ite_false] at h
        obtain ⟨it, _, hbc⟩ := List.mem_filterMap.mp h
        exact ⟨spot, it, hbc⟩

theorem rawCandidates_scoreOK {inputs : List (String × Option Chain)} {expDay : ℤ}
    {dte : ℕ} : ∀ c ∈ rawCandidates inputs expDay dte, scoreOK c := by
  intro c hc
  unfold rawCandidates at hc
  rw [List.mem_flatten] at hc
  obtain ⟨l, hl, hcl⟩ := hc
  rw [List.mem_map] at hl
  obtain ⟨p, _, rfl⟩ := hl
  obtain ⟨spot, it, hbc⟩ := mem_scanTicker hcl
  exact buildCandidate_scoreOK hbc

/-! ## Theorems: the chain cache -/

theorem cacheLookup_append_self (m : List (String × Option Chain)) (k : String)
    (v : Option Chain) (h : cacheLookup m k = none) :
    cacheLookup (m ++ [(k, v)]) k = some v := by
  induction m with
  | nil => simp [cacheLookup]
  | cons e es ih =>
    by_cases he : e.1 = k
    · rw [cacheLookup, if_pos he] at h; cases h
    · rw [cacheLookup, if_neg he] at h
      rw [List.cons_append, cacheLookup, if_neg he]
      exact ih h

theorem cacheLookup_map_self (m : List (String × Option Chain)) (k : String)
    (v : Option Chain) (h : (cacheLookup m k).isSome) :
    cacheLookup (m.map fun e => if e.1 = k then (k, v) else e) k = some v := by
  induction m with
  | nil => simp [cacheLookup] at h
  | cons e es ih =>
    by_cases he : e.1 = k
    · simp only [List.map_cons, if_pos he]
      rw [cacheLookup, if_pos rfl]
    · simp only [List.map_cons, if_neg he]
      rw [cacheLookup, if_neg he]
      rw [cacheLookup, if_neg he] at h
      exact ih h

theorem cacheLookup_set_self (m : List (String × Option Chain)) (k : String)
    (v : Option Chain) : cacheLookup (cacheSet m k v) k = some v := by
  unfold cacheSet
  by_cases h : (cacheLookup m k).isSome
  · rw [if_pos h]
    exact cacheLookup_map_self m k v h
  · rw [if_neg h]
    exact cacheLookup_append_self m k v (Option.not_isSome_iff_eq_none.mp h)

/-! ## Theorems: fetch memoization -/

theorem fetch_cache_hit {env : Env} {st : St} {sym expIso : String} {v : Option Chain}
    (h : cacheLookup st.cache (sym ++ "-" ++ expIso) = some v) :
    fetchYahooOptions env st sym expIso = (.ok v, st) := by
  simp [fetchYahooOptions, h]

theorem fetch_completed_memoized {env : Env} {st : St} {sym expIso : String}
    {r : Option Chain} {st1 : St}
    (h : fetchYahooOptions env st sym expIso = (.ok r, st1)) :
    cacheLookup st1.cache (sym ++ "-" ++ expIso) = some r ∧
      fetchYahooOptions env st1 sym expIso = (.ok r, st1) := by
  unfold fetchYahooOptions at h
  cases hc : cacheLookup st.cache (sym ++ "-" ++ expIso) with
  | some v =>
    simp only [hc] at h
    rw [Prod.mk.injEq] at h
    obtain ⟨h1, h2⟩ := h
    obtain rfl := Except.ok.inj h1
    subst h2
    exact ⟨hc, fetch_cache_hit hc⟩
  | none =>
    simp only [hc] at h
    cases hs : ensureYahooSession env st.session with
    | none =>
      simp only [hs] at h
      rw [Prod.mk.injEq] at h
      obtain ⟨h1, h2⟩ := h
      obtain rfl := Except.ok.inj h1
      subst h2
      exact ⟨cacheLookup_set_self .., fetch_cache_hit (cacheLookup_set_self ..)⟩
    | some session =>
      simp only [hs] at h
      cases hr : env.chainResp st.calls with
      | netThrow => simp only [hr] at h; simp at h
      | httpErr =>
        simp only [hr] at h
        rw [Prod.mk.injEq] at h
        obtain ⟨h1, h2⟩ := h
        obtain rfl := Except.ok.inj h1
        subst h2
        exact ⟨cacheLookup_set_self .., fetch_cache_hit (cacheLookup_set_self ..)⟩
      | ok p =>
        simp only [hr] at h
        rw [Prod.mk.injEq] at h
        obtain ⟨h1, h2⟩ := h
        obtain rfl := Except.ok.inj h1
        subst h2
        exact ⟨cacheLookup_set_self .., fetch_cache_hit (cacheLookup_set_self ..)⟩
      | status401 =>
        simp only [hr] at h
        cases hh : ensureYahooSession env none with
        | none =>
          simp only [hh] at h
          rw [Prod.mk.injEq] at h
          obtain ⟨h1, h2⟩ := h
          obtain rfl := Except.ok.inj h1
          subst h2
          exact ⟨cacheLookup_set_self .., fetch_cache_hit (cacheLookup_set_self ..)⟩
        | some fresh =>
          simp only [hh] at h
          cases hr2 : env.chainResp (st.calls + 1) with
          | netThrow => simp only [hr2] at h; simp at h
          | ok p =>
            simp only [hr2] at h
            rw [Prod.mk.injEq] at h
            obtain ⟨h1, h2⟩ := h
            obtain rfl := Except.ok.inj h1
            subst h2
            exact ⟨cacheLookup_set_self .., fetch_cache_hit (cacheLookup_set_self ..)⟩
          | status401 =>
            simp only [hr2] at h
            rw [Prod.mk.injEq] at h
            obtain ⟨h1, h2⟩ := h
            obtain rfl := Except.ok.inj h1
            subst h2
            exact ⟨cacheLookup_set_self .., fetch_cache_hit (cacheLookup_set_self ..)⟩
          | httpErr =>
            simp only [hr2] at h
            rw [Prod.mk.injEq] at h
            obtain ⟨h1, h2⟩ := h
            obtain rfl := Except.ok.inj h1
            subst h2
            exact ⟨cacheLookup_set_self .., fetch_cache_hit (cacheLookup_set_self ..)⟩

/-! ## Theorems: concrete scenario evaluations -/

theorem abs_neg_008 : |(-0.08:ℝ)| = 0.08 := by
  rw [abs_of_neg (by norm_num)]; norm_num

theorem scenA_eval : buildCandidate "A" 1 7 100 scenAPut = some scenACand := by
  have hexp : expDayOf scenAPut.expiration = some 1 := by
    show expDayOf (some 86400) = some 1
    simp only [expDayOf]
    rw [if_neg (by norm_num : ¬ (86400:ℝ) = 0)]
    norm_num
  have hd : resolveDelta 100 90 scenAPut.impliedVolatility 7 scenAPut.delta
      = some (-0.08) := rfl
  have h := @buildCandidate_emit "A" 1 7 100 scenAPut 90 1 1.1 hexp rfl
    (by norm_num) rfl (by norm_num)
    (by show midPremium (some 1) (some 1.2) none = some 1.1
        simp only [midPremium]; norm_num)
    (by norm_num) (by norm_num) (by norm_num)
    (by intro d hdd
        rw [hd] at hdd
        obtain rfl := (Option.some.inj hdd).symm
        rw [abs_neg_008]
        norm_num)
  rw [h]
  congr 1
  rw [hd]
  unfold scenACand
  simp only [Option.map_some', Candidate.mk.injEq, show scenAPut.ask = some 1.2 from rfl,
    show scenAPut.impliedVolatility = some 0.30 from rfl, abs_neg_008]
  norm_num

theorem posDelta_eval : buildCandidate "B" 1 7 100 posDeltaPut = some posDeltaCand := by
  have habs : |(0.05:ℝ)| = 0.05 := by
    rw [abs_of_nonneg (by norm_num)]
  have hexp : expDayOf posDeltaPut.expiration = some 1 := by
    show expDayOf (some 86400) = some 1
    simp only [expDayOf]
    rw [if_neg (by norm_num : ¬ (86400:ℝ) = 0)]
    norm_num
  have hd : resolveDelta 100 90 posDeltaPut.impliedVolatility 7 posDeltaPut.delta
      = some 0.05 := rfl
  have h := @buildCandidate_emit "B" 1 7 100 posDeltaPut 90 1 1.1 hexp rfl
    (by norm_num) rfl (by norm_num)
    (by show midPremium (some 1) (some 1.2) none = some 1.1
        simp only [midPremium]; norm_num)
    (by norm_num) (by norm_num) (by norm_num)
    (by intro d hdd
        rw [hd] at hdd
        obtain rfl := (Option.some.inj hdd).symm
        rw [habs]
        norm_num)
  rw [h]
  congr 1
  rw [hd]
  unfold posDeltaCand
  simp only [Option.map_some', Candidate.mk.injEq,
    show posDeltaPut.ask = some 1.2 from rfl,
    show posDeltaPut.impliedVolatility = some 0.30 from rfl, habs]
  norm_num

/-! ## Claim theorems -/

/-- C1 (counterexample): in Scenario A the emitted row has premium 1.10 as the
claim says, but its roi is not `(premium / strike) × 100` and its annualized
ROI is not `(premium / strike) × (365 / 7) × 100` — the source computes both
from `roiBase = bid`, not from the premium. -/
theorem C1_counterexample :
    buildCandidate "A" 1 7 100 scenAPut = some scenACand ∧
    scenACand.premium = 1.1 ∧
    scenACand.roi ≠ scenACand.premium / scenACand.strike * 100 ∧
    scenACand.roi_annualized ≠
      some (scenACand.premium / scenACand.strike * (365 / 7) * 100) := by
  refine ⟨scenA_eval, rfl, ?_, ?_⟩
  · show (10 / 9 : ℝ) ≠ 1.1 / 90 * 100
    norm_num
  · show some (3650 / 63 : ℝ) ≠ some (1.1 / 90 * (365 / 7) * 100)
    intro h
    have := Option.some.inj h
    norm_num at this

/-- C1 (amended): for every emitted row, the premium field follows the claimed
midpoint / single-side / last-trade rule, but `roi` equals `(bid / strike) ×
100` and `annualizedRoi` equals `(bid / strike) × (365 / daysToExpiry) × 100`
when `daysToExpiry > 0` (null when it is 0); in Scenario A the row has premium
1.10, roi = 100/90 ≈ 1.111 and annualizedRoi = 36500/630 ≈ 57.9. -/
theorem C1_roi_uses_bid {sym : String} {expDay : ℤ} {dte : ℕ} {spot : ℝ} {it : Put}
    {c : Candidate} (h : buildCandidate sym expDay dte spot it = some c) :
    (∀ bv av, it.bid = some bv → it.ask = some av → c.premium = (bv + av) / 2) ∧
    (∀ bv, it.bid = some bv → it.ask = none → c.premium = bv) ∧
    c.roi = c.bid / c.strike * 100 ∧
    (0 < dte → c.roi_annualized = some (c.bid / c.strike * (365 / (dte : ℝ)) * 100)) ∧
    (dte = 0 → c.roi_annualized = none) := by
  obtain ⟨-, K, b, prem, hK, h2, hb, hbpos, hpr, hppos, hspot, hm, hpop, rfl⟩ :=
    buildCandidate_eq_some h
  refine ⟨?_, ?_, rfl, ?_, ?_⟩
  · intro bv av hbv hav
    rw [hb] at hbv
    obtain rfl := Option.some.inj hbv
    rw [hb, hav] at hpr
    simp only [midPremium] at hpr
    exact (Option.some.inj hpr).symm
  · intro bv hbv hav
    rw [hb] at hbv
    obtain rfl := Option.some.inj hbv
    rw [hb, hav] at hpr
    simp only [midPremium] at hpr
    exact (Option.some.inj hpr).symm
  · intro hdte
    show (if 0 < dte then some (b / K * (365 / (dte : ℝ)) * 100) else none) = _
    rw [if_pos hdte]
  · intro hdte
    show (if 0 < dte then some (b / K * (365 / (dte : ℝ)) * 100) else none) = none
    rw [if_neg (by simp [hdte])]

/-- C1 (witness): the amended theorem applied to the Scenario A row. -/
theorem C1_roi_uses_bid_witness :
    buildCandidate "A" 1 7 100 scenAPut = some scenACand ∧
    scenACand.roi = scenACand.bid / scenACand.strike * 100 ∧
    scenACand.roi_annualized =
      some (scenACand.bid / scenACand.strike * (365 / (7:ℕ) : ℝ) * 100) :=
  ⟨scenA_eval, (C1_roi_uses_bid scenA_eval).2.2.1,
    (C1_roi_uses_bid scenA_eval).2.2.2.1 (by norm_num)⟩

/-- C2 (counterexample): a provider-supplied delta of +0.05 passes every filter
(its POP is 95 ≥ 90) and is copied through, so an emitted Candidate can carry a
delta outside `[-1, 0]`. -/
theorem C2_counterexample :
    buildCandidate "B" 1 7 100 posDeltaPut = some posDeltaCand ∧
    posDeltaCand.delta = some 0.05 ∧ ¬ ((0.05:ℝ) ≤ 0) :=
  ⟨posDelta_eval, rfl, by norm_num⟩

/-- C2 (amended): every emitted Candidate has delta null or with `|delta| ≤
0.1` (the POP ≥ 90 filter bounds it; a provider-supplied positive delta up to
+0.1 survives, so `[-1, 0]` does not hold); its moneyness lies in `(0, 1)`, its
premium is strictly positive, and its annualizedRoi is null exactly when
days-to-expiry is 0. -/
theorem C2_invariants {sym : String} {expDay : ℤ} {dte : ℕ} {spot : ℝ} {it : Put}
    {c : Candidate} (h : buildCandidate sym expDay dte spot it = some c) :
    (c.delta = none ∨ ∃ d, c.delta = some d ∧ |d| ≤ 0.1) ∧
    0 < c.moneyness ∧ c.moneyness < 1 ∧
    0 < c.premium ∧
    (c.roi_annualized = none ↔ dte = 0) := by
  obtain ⟨-, K, b, prem, hK, h2, hb, hbpos, hpr, hppos, hspot, hm, hpop, rfl⟩ :=
    buildCandidate_eq_some h
  push_neg at h2
  have hspos : 0 < spot := lt_of_le_of_lt h2.2 h2.1
  refine ⟨?_, ?_, ?_, hppos, ?_⟩
  · show (resolveDelta spot K it.impliedVolatility dte it.delta = none ∨ _)
    cases hd : resolveDelta spot K it.impliedVolatility dte it.delta with
    | none => exact Or.inl rfl
    | some d =>
      refine Or.inr ⟨d, rfl, ?_⟩
      have := hpop d hd
      push_neg at this
      linarith
  · show 0 < K / spot
    linarith
  · show K / spot < 1
    rw [div_lt_one hspos]
    exact h2.1
  · show (if 0 < dte then some (b / K * (365 / (dte : ℝ)) * 100) else none) = none ↔ dte = 0
    by_cases hdte : 0 < dte
    · rw [if_pos hdte]
      simp only [reduceCtorEq, false_iff]
      omega
    · rw [if_neg hdte]
      simp only [true_iff]
      omega

/-- C2 (witness): the amended invariants hold on the Scenario A row. -/
theorem C2_invariants_witness :
    buildCandidate "A" 1 7 100 scenAPut = some scenACand ∧
    ((scenACand.delta = none ∨ ∃ d, scenACand.delta = some d ∧ |d| ≤ 0.1) ∧
      0 < scenACand.moneyness ∧ scenACand.moneyness < 1 ∧
      0 < scenACand.premium ∧
      (scenACand.roi_annualized = none ↔ 7 = 0)) :=
  ⟨scenA_eval, C2_invariants scenA_eval⟩

/-- C3: the final output has pairwise-distinct tickers (hence at most one entry
per ticker and at most K entries for K distinct tickers among the raw rows),
each kept entry scores at least every raw row of its ticker (null scored
lowest), and the output is sorted descending by annualized ROI with nulls
last (`WithBot ℝ` order, null = ⊥). -/
theorem C3_dedup_sort (inputs : List (String × Option Chain)) (expDay : ℤ) (dte : ℕ) :
    ((scanLive inputs expDay dte).map Candidate.ticker).Nodup ∧
    (scanLive inputs expDay dte).length ≤
      ((rawCandidates inputs expDay dte).map Candidate.ticker).dedup.length ∧
    (∀ c ∈ scanLive inputs expDay dte, ∀ c' ∈ rawCandidates inputs expDay dte,
      c'.ticker = c.ticker → scoreW c' ≤ scoreW c) ∧
    List.Pairwise (fun a b => scoreW b ≤ scoreW a) (scanLive inputs expDay dte) := by
  obtain ⟨hnd, hkept, hcov⟩ := bestByTicker_inv (rawCandidates inputs expDay dte)
  have hperm : List.Perm (scanLive inputs expDay dte)
      ((bestByTicker (rawCandidates inputs expDay dte)).map Prod.snd) :=
    sortCandidates_perm _
  have hvt : ((bestByTicker (rawCandidates inputs expDay dte)).map Prod.snd).map
      Candidate.ticker = (bestByTicker (rawCandidates inputs expDay dte)).map Prod.fst := by
    rw [List.map_map]
    exact List.map_congr_left fun e he => (hkept e he).1
  have hmem_values : ∀ c ∈ (bestByTicker (rawCandidates inputs expDay dte)).map Prod.snd,
      c ∈ rawCandidates inputs expDay dte ∧
      ∀ c' ∈ rawCandidates inputs expDay dte, c'.ticker = c.ticker →
        scoreW c' ≤ scoreW c := by
    intro c hc
    obtain ⟨e, he, rfl⟩ := List.mem_map.mp hc
    have hk := hkept e he
    obtain ⟨hct, l1, l2, hsplit, -, -⟩ := hk
    refine ⟨?_, ?_⟩
    · rw [hsplit]
      exact List.mem_append_right _ (List.mem_cons_self _ _)
    · intro c' hc' ht
      exact keptFor_le (hkept e he) c' hc' (ht.trans hct)
  refine ⟨?_, ?_, ?_, ?_⟩
  · refine ((hperm.map Candidate.ticker).nodup_iff).mpr ?_
    rw [hvt]
    exact hnd
  · have hsub : ∀ a ∈ (bestByTicker (rawCandidates inputs expDay dte)).map Prod.fst,
        a ∈ (rawCandidates inputs expDay dte).map Candidate.ticker := by
      intro a ha
      obtain ⟨e, he, rfl⟩ := List.mem_map.mp ha
      obtain ⟨hct, l1, l2, hsplit, -, -⟩ := hkept e he
      rw [← hct]
      apply List.mem_map_of_mem
      rw [hsplit]
      exact List.mem_append_right _ (List.mem_cons_self _ _)
    calc (scanLive inputs expDay dte).length
        = ((bestByTicker (rawCandidates inputs expDay dte)).map Prod.fst).length := by
          rw [hperm.length_eq, List.length_map, List.length_map]
      _ = ((bestByTicker (rawCandidates inputs expDay dte)).map Prod.fst).toFinset.card :=
          (List.toFinset_card_of_nodup hnd).symm
      _ ≤ ((rawCandidates inputs expDay dte).map Candidate.ticker).toFinset.card := by
          apply Finset.card_le_card
          intro a ha
          rw [List.mem_toFinset] at ha ⊢
          exact hsub a ha
      _ = ((rawCandidates inputs expDay dte).map Candidate.ticker).dedup.length :=
          List.card_toFinset _
  · intro c hc c' hc' ht
    exact (hmem_values c ((hperm.mem_iff).mp hc)).2 c' hc' ht
  · refine sorted_scoreW ?_ (sortCandidates_sorted _)
    intro c hc
    exact rawCandidates_scoreOK c (hmem_values c ((hperm.mem_iff).mp hc)).1

/-- C10: the row held for a ticker is the earliest raw row achieving the
maximal score for that ticker — every earlier same-ticker row scores strictly
below it (a later row replaces the held one only on a strictly greater score),
and every later one scores at most it. -/
theorem C10_tiebreak {rows : List Candidate} {t : String} {c : Candidate}
    (h : lookupA (bestByTicker rows) t = some c) :
    c.ticker = t ∧ ∃ l1 l2, rows = l1 ++ c :: l2 ∧
      (∀ c' ∈ l1, c'.ticker = t → scoreW c' < scoreW c) ∧
      (∀ c' ∈ l2, c'.ticker = t → scoreW c' ≤ scoreW c) :=
  bestByTicker_keptFor h

/-- C10 (witness): two same-ticker rows with equal score 40 — the first one
pushed is the one kept. -/
theorem C10_tiebreak_witness :
    lookupA (bestByTicker [tieCandX, tieCandY]) "XYZ" = some tieCandX ∧
    (tieCandX.ticker = "XYZ" ∧ ∃ l1 l2, [tieCandX, tieCandY] = l1 ++ tieCandX :: l2 ∧
      (∀ c' ∈ l1, c'.ticker = "XYZ" → scoreW c' < scoreW tieCandX) ∧
      (∀ c' ∈ l2, c'.ticker = "XYZ" → scoreW c' ≤ scoreW tieCandX)) := by
  have hsc : ¬ (scoreW tieCandX < scoreW tieCandY) := by
    show ¬ ((40:ℝ) : WithBot ℝ) < ((40:ℝ) : WithBot ℝ)
    exact lt_irrefl _
  have e1 : bestStep [] tieCandX = [("XYZ", tieCandX)] := by
    simp only [bestStep, show lookupA [] tieCandX.ticker = none from rfl]
    rfl
  have e2 : bestStep [("XYZ", tieCandX)] tieCandY = [("XYZ", tieCandX)] := by
    simp only [bestStep,
      show lookupA [("XYZ", tieCandX)] tieCandY.ticker = some tieCandX from rfl]
    rw [if_neg hsc]
  have heval : lookupA (bestByTicker [tieCandX, tieCandY]) "XYZ" = some tieCandX := by
    show lookupA (bestStep (bestStep [] tieCandX) tieCandY) "XYZ" = some tieCandX
    rw [e1, e2]
    rfl
  exact ⟨heval, C10_tiebreak heval⟩

/-- C7: an unresolvable delta (null from provider and fallback) yields a null
probability of profit and passes the POP filter vacuously — the contract is
emitted (with null pop) when every other guard passes — while the moneyness
filter is mandatory: null moneyness (spot 0) or moneyness ≤ 0.85 drops the
contract regardless of its delta, hence regardless of its POP. -/
theorem C7_filters {sym : String} {expDay : ℤ} {dte : ℕ} {spot : ℝ} {it : Put} :
    (∀ {K b prem : ℝ},
      expDayOf it.expiration = some expDay →
      it.strike = some K → ¬ (K ≥ spot ∨ K < 0) →
      it.bid = some b → 0 < b →
      midPremium it.bid it.ask it.lastPrice = some prem → 0 < prem →
      spot ≠ 0 → 0.85 < K / spot →
      resolveDelta spot K it.impliedVolatility dte it.delta = none →
      ∃ c, buildCandidate sym expDay dte spot it = some c ∧
        c.pop = none ∧ c.delta = none) ∧
    (∀ K, it.strike = some K → (spot = 0 ∨ K / spot ≤ 0.85) →
      buildCandidate sym expDay dte spot it = none) := by
  constructor
  · intro K b prem hexp hK hKw hb hbpos hpr hppos hspot hm hd
    have h := @buildCandidate_emit sym expDay dte spot it K b prem hexp hK hKw hb hbpos
      hpr hppos hspot hm (fun d' hd' => absurd hd' (by rw [hd]; simp))
    refine ⟨_, h, ?_, ?_⟩
    · show (resolveDelta spot K it.impliedVolatility dte it.delta).map
        (fun d => (1 - |d|) * 100) = none
      rw [hd]
      rfl
    · exact hd
  · intro K hK hbad
    cases hres : buildCandidate sym expDay dte spot it with
    | none => rfl
    | some c =>
      exfalso
      obtain ⟨-, K', b, prem, hK', -, -, -, -, -, hsp, hm, -, -⟩ :=
        buildCandidate_eq_some hres
      rw [hK] at hK'
      obtain rfl := (Option.some.inj hK').symm
      rcases hbad with h | h
      · exact hsp h
      · exact absurd hm (not_lt.mpr h)

/-- C7 (witness): a contract with no provider delta and no implied volatility
is emitted with null pop when the other guards pass; the Scenario A contract
is dropped at spot 200, where its moneyness 0.45 fails the 0.85 buffer, even
though its POP is 92 ≥ 90. -/
theorem C7_filters_witness :
    (∃ c, buildCandidate "C" 1 7 100 noDeltaPut = some c ∧
      c.pop = none ∧ c.delta = none) ∧
    buildCandidate "A" 1 7 200 scenAPut = none := by
  constructor
  · exact (@C7_filters "C" 1 7 100 noDeltaPut).1
      (by show expDayOf (some 86400) = some 1
          simp only [expDayOf]
          rw [if_neg (by norm_num : ¬ (86400:ℝ) = 0)]
          norm_num)
      rfl (by norm_num) rfl (by norm_num)
      (by show midPremium (some 1) (some 1.2) none = some 1.1
          simp only [midPremium]
          norm_num)
      (by norm_num) (by norm_num) (by norm_num)
      (by show resolveDelta 100 90 none 7 none = none
          simp [resolveDelta, bsPutDelta])
  · exact (@C7_filters "A" 1 7 200 scenAPut).2 90 rfl (Or.inr (by norm_num))

/-- C8: for finite positive spot, strike and implied volatility the put delta
is defined and lies in `[-1, 0]` for any days-to-expiry, and the function
returns null exactly when spot, strike or implied volatility is null (the
image of a non-finite number under `num`) or non-positive. -/
theorem C8_putDelta_contract :
    (∀ (S K v : ℝ) (dte : Option ℝ), 0 < S → 0 < K → 0 < v →
      ∃ r, bsPutDelta (some S) (some K) (some v) dte = some r ∧ -1 ≤ r ∧ r ≤ 0) ∧
    (∀ spot strike iv dte : Option ℝ,
      bsPutDelta spot strike iv dte = none ↔
        badNumArg spot ∨ badNumArg strike ∨ badNumArg iv) :=
  ⟨fun _ _ _ dte hS hK hv => bsPutDelta_pos_inputs hS hK hv dte, bsPutDelta_eq_none_iff⟩

/-- C8 (witness): the contract applied at spot 100, strike 90, vol 0.3,
dte 7, and at all-null inputs. -/
theorem C8_putDelta_contract_witness :
    (0:ℝ) < 100 ∧ (0:ℝ) < 90 ∧ (0:ℝ) < 0.3 ∧
    (∃ r, bsPutDelta (some 100) (some 90) (some 0.3) (some 7) = some r ∧
      -1 ≤ r ∧ r ≤ 0) ∧
    (bsPutDelta none none none none = none ↔
      badNumArg none ∨ badNumArg none ∨ badNumArg none) :=
  ⟨by norm_num, by norm_num, by norm_num,
    C8_putDelta_contract.1 100 90 0.3 (some 7) (by norm_num) (by norm_num) (by norm_num),
    C8_putDelta_contract.2 none none none none⟩

/-- C9 (counterexample): the reflection identity fails at `x = 0`: the
approximation gives `normCdf 0 = 1 - 1.253314136/√(2π) ≠ 0.5` (equality would
make π rational-bounded below its true value), so `normCdf (-0) ≠ 1 - normCdf 0`. -/
theorem C9_counterexample : ¬ (normCdf (-(0:ℝ)) = 1 - normCdf 0) := by
  rw [neg_zero]
  intro h
  have : normCdf 0 = 0.5 := by linarith
  exact normCdf_zero_ne_half this

/-- C9 (amended): the reflection identity `normCdf (-x) = 1 - normCdf x` holds
for every `x ≠ 0` (at `x = 0` it fails by about 5×10⁻⁹), and `normCdf 0` is
within 10⁻⁶ of 0.5. -/
theorem C9_symmetry_off_zero :
    (∀ x : ℝ, x ≠ 0 → normCdf (-x) = 1 - normCdf x) ∧ |normCdf 0 - 0.5| < 1e-6 :=
  ⟨fun _ hx => normCdf_neg_of_ne hx, normCdf_zero_near_half⟩

/-- C9 (witness): the amended symmetry applied at `x = 1`. -/
theorem C9_symmetry_off_zero_witness :
    (1:ℝ) ≠ 0 ∧ normCdf (-(1:ℝ)) = 1 - normCdf 1 :=
  ⟨by norm_num, C9_symmetry_off_zero.1 1 (by norm_num)⟩

/-- C4 (counterexample): a thrown chain request is not caught inside the fetch
layer and not memoized — `fetchYahooOptions` surfaces `Except.error` and leaves
the cache without an entry for the key, contradicting "never throws past
itself … memoized as the null result". -/
theorem C4_counterexample :
    (fetchYahooOptions envThrow st0 "AAPL" "2020-01-03").1 = Except.error () ∧
    cacheLookup (fetchYahooOptions envThrow st0 "AAPL" "2020-01-03").2.cache
      ("AAPL" ++ "-" ++ "2020-01-03") = none :=
  ⟨rfl, rfl⟩

/-- C4 (amended): on a 401 the fetch nulls the shared session, acquires a
fresh credential and retries exactly once (two requests), memoizing null on a
second failure; a failed re-acquisition memoizes null without a retry; but a
thrown network error escapes the fetch layer uncached (the state keeps only
the request count and session), and is absorbed at the orchestrator's
settle-all join, which yields no rows for the ticker instead of failing the
batch. -/
theorem C4_error_handling (env : Env) (st : St) (sym expIso : String)
    (hmiss : cacheLookup st.cache (sym ++ "-" ++ expIso) = none)
    (session : Session) (hs : ensureYahooSession env st.session = some session) :
    (∀ fresh, env.chainResp st.calls = .status401 →
      ensureYahooSession env none = some fresh →
      env.chainResp (st.calls + 1) = .httpErr →
      fetchYahooOptions env st sym expIso =
        (.ok none, ⟨some fresh, cacheSet st.cache (sym ++ "-" ++ expIso) none,
          st.calls + 2⟩)) ∧
    (env.chainResp st.calls = .status401 → ensureYahooSession env none = none →
      fetchYahooOptions env st sym expIso =
        (.ok none, ⟨none, cacheSet st.cache (sym ++ "-" ++ expIso) none,
          st.calls + 1⟩)) ∧
    (env.chainResp st.calls = .netThrow →
      fetchYahooOptions env st sym expIso =
        (.error (), ⟨some session, st.cache, st.calls + 1⟩)) ∧
    (∀ (expDay : ℤ) (dte : ℕ), env.chainResp st.calls = .netThrow →
      settleTicker env expDay dte expIso st sym =
        ([], ⟨some session, st.cache, st.calls + 1⟩)) := by
  refine ⟨?_, ?_, ?_, ?_⟩
  · intro fresh h401 hfresh hretry
    simp only [fetchYahooOptions, hmiss, hs, h401, hfresh, hretry]
  · intro h401 hfail
    simp only [fetchYahooOptions, hmiss, hs, h401, hfail]
  · intro hthrow
    simp only [fetchYahooOptions, hmiss, hs, hthrow]
  · intro expDay dte hthrow
    simp only [settleTicker, fetchYahooOptions, hmiss, hs, hthrow]

/-- C4 (witness): the 401-retry path on the oracle that 401s once then fails,
and the throw path on the always-throwing oracle. -/
theorem C4_error_handling_witness :
    fetchYahooOptions env401 st0 "A" "e" =
      (.ok none, ⟨some ⟨"ck", "cr", 0⟩,
        cacheSet st0.cache ("A" ++ "-" ++ "e") none, st0.calls + 2⟩) ∧
    fetchYahooOptions envThrow st0 "A" "e" =
      (.error (), ⟨some ⟨"ck", "cr", 0⟩, st0.cache, st0.calls + 1⟩) :=
  ⟨(C4_error_handling env401 st0 "A" "e" rfl ⟨"ck", "cr", 0⟩ rfl).1
      ⟨"ck", "cr", 0⟩ rfl rfl rfl,
    (C4_error_handling envThrow st0 "A" "e" rfl ⟨"ck", "cr", 0⟩ rfl).2.2.1 rfl⟩

/-- C5 (counterexample): spot resolution takes the first *finite* field, not
the first finite *positive* one — on a quote with `regularMarketPrice = 0` and
`bid = 100` the source resolves spot 0 while the claimed rule resolves 100 —
and a chain with no resolvable spot still yields a cached payload
`{puts, spot: null}`, not a null result. -/
theorem C5_counterexample :
    resolveSpot qZero = some 0 ∧ resolveSpotSpec qZero = some 100 ∧
    (fetchYahooOptions envNoSpot st0 "A" "e").1 = Except.ok (some ⟨[], none⟩) ∧
    some (⟨[], none⟩ : Chain) ≠ (none : Option Chain) := by
  refine ⟨rfl, ?_, rfl, by simp⟩
  show resolveSpotSpec qZero = some 100
  simp only [resolveSpotSpec, qZero, firstPosNum]
  rw [if_neg (lt_irrefl (0:ℝ)), if_pos (by norm_num : (0:ℝ) < 100)]

/-- C5 (amended): the fetch resolves the spot by trying regular market price,
bid, ask, previous close in order, and the first present (finite) value wins
regardless of sign; when all four are absent the payload is still returned and
memoized with a null spot (the null-spot skip happens in the orchestrator, not
in the fetch). -/
theorem C5_first_finite :
    (∀ (q : Quote) (v : ℝ), q.regularMarketPrice = some v → resolveSpot q = some v) ∧
    (∀ (q : Quote) (v : ℝ), q.regularMarketPrice = none → q.bid = some v →
      resolveSpot q = some v) ∧
    (∀ (q : Quote) (v : ℝ), q.regularMarketPrice = none → q.bid = none →
      q.ask = some v → resolveSpot q = some v) ∧
    (∀ q : Quote, q.regularMarketPrice = none → q.bid = none → q.ask = none →
      resolveSpot q = q.previousClose) ∧
    (∀ (env : Env) (st : St) (sym expIso : String) (p : ChainPayload),
      cacheLookup st.cache (sym ++ "-" ++ expIso) = none →
      ∀ session, ensureYahooSession env st.session = some session →
      env.chainResp st.calls = .ok p →
      fetchYahooOptions env st sym expIso =
        (.ok (some ⟨p.puts, resolveSpot p.quote⟩),
          ⟨some session, cacheSet st.cache (sym ++ "-" ++ expIso)
            (some ⟨p.puts, resolveSpot p.quote⟩), st.calls + 1⟩)) := by
  refine ⟨?_, ?_, ?_, ?_, ?_⟩
  · intro q v h
    simp only [resolveSpot, h]
  · intro q v h1 h2
    simp only [resolveSpot, h1, h2]
  · intro q v h1 h2 h3
    simp only [resolveSpot, h1, h2, h3]
  · intro q h1 h2 h3
    simp only [resolveSpot, h1, h2, h3]
  · intro env st sym expIso p hmiss session hs hok
    simp only [fetchYahooOptions, parseChain, hmiss, hs, hok]

/-- C5 (witness): the preference order applied to concrete quotes, and the
fetch returning a payload whose spot is unresolvable. -/
theorem C5_first_finite_witness :
    qZero.regularMarketPrice = some 0 ∧ resolveSpot qZero = some 0 ∧
    fetchYahooOptions envNoSpot st0 "A" "e" =
      (.ok (some ⟨[], resolveSpot qNone⟩),
        ⟨some ⟨"ck", "cr", 0⟩, cacheSet st0.cache ("A" ++ "-" ++ "e")
          (some ⟨[], resolveSpot qNone⟩), st0.calls + 1⟩) :=
  ⟨rfl, C5_first_finite.1 qZero 0 rfl,
    C5_first_finite.2.2.2.2 envNoSpot st0 "A" "e" ⟨[], qNone⟩ rfl ⟨"ck", "cr", 0⟩ rfl rfl⟩

/-- C6 (counterexample): two calls with the same key can issue two upstream
requests in total — a 401 on the first call already triggers one retry, so the
first call issues two requests even though the second call is a pure cache
hit. -/
theorem C6_counterexample :
    ((fetchYahooOptions env401 ((fetchYahooOptions env401 st0 "A" "e").2) "A" "e").2).calls
      = 2 ∧
    ¬ (((fetchYahooOptions env401
        ((fetchYahooOptions env401 st0 "A" "e").2) "A" "e").2).calls
        - st0.calls ≤ 1) := by
  refine ⟨rfl, fun hle => ?_⟩
  rw [show ((fetchYahooOptions env401
      ((fetchYahooOptions env401 st0 "A" "e").2) "A" "e").2).calls = 2 from rfl,
    show st0.calls = 0 from rfl] at hle
  norm_num at hle

/-- C6 (amended): any *completed* (non-throwing) fetch memoizes its result,
null included, under its key; a second call with the same key then returns
exactly the memoized value with the state unchanged — in particular it issues
no further upstream request.  (A call that throws caches nothing, and the
401-retry path issues a second request within the first call.) -/
theorem C6_memoization {env : Env} {st : St} {sym expIso : String} {r : Option Chain}
    {st1 : St} (h : fetchYahooOptions env st sym expIso = (.ok r, st1)) :
    cacheLookup st1.cache (sym ++ "-" ++ expIso) = some r ∧
      fetchYahooOptions env st1 sym expIso = (.ok r, st1) :=
  fetch_completed_memoized h

/-- C6 (witness): memoization after one successful fetch on a concrete oracle:
the second call returns the cached payload with the state (and call counter)
unchanged. -/
theorem C6_memoization_witness :
    fetchYahooOptions envNoSpot st0 "A" "e" =
      (.ok (some ⟨[], none⟩),
        ⟨some ⟨"ck", "cr", 0⟩, [("A" ++ "-" ++ "e", some ⟨[], none⟩)], 1⟩) ∧
    (cacheLookup
        (⟨some ⟨"ck", "cr", 0⟩, [("A" ++ "-" ++ "e", some ⟨[], none⟩)], 1⟩ : St).cache
        ("A" ++ "-" ++ "e") = some (some ⟨[], none⟩) ∧
      fetchYahooOptions envNoSpot
        ⟨some ⟨"ck", "cr", 0⟩, [("A" ++ "-" ++ "e", some ⟨[], none⟩)], 1⟩ "A" "e" =
        (.ok (some ⟨[], none⟩),
          ⟨some ⟨"ck", "cr", 0⟩, [("A" ++ "-" ++ "e", some ⟨[], none⟩)], 1⟩)) := by
  have h : fetchYahooOptions envNoSpot st0 "A" "e" =
      (.ok (some ⟨[], none⟩),
        ⟨some ⟨"ck", "cr", 0⟩, [("A" ++ "-" ++ "e", some ⟨[], none⟩)], 1⟩) := rfl
  exact ⟨h, C6_memoization h⟩

end OptionsScanLive
